import Mathlib

/-!
Shallow embedding of the bratus status-line formatter (src/main.rs).

A Rust `str` is modelled as a `List Char` of Unicode scalar values, together
with byte-level helpers (`utf8Len`, `byteLen`) so that byte-indexed slicing
such as `&s[1..]` is modelled faithfully, including its panic on a non
character boundary.  A panic is modelled as `Option.none`.
-/

/-- Number of bytes of the UTF-8 encoding of a character. -/
def utf8Len (c : Char) : Nat :=
  if c.toNat < 128 then 1
  else if c.toNat < 2048 then 2
  else if c.toNat < 65536 then 3
  else 4

/-- Byte length of a string, i.e. Rust's `str::len`. -/
def byteLen (s : List Char) : Nat :=
  (s.map utf8Len).sum

/-- Model of `&s[1..]` on a Rust `str`: drops the first byte.  Panics
(`none`) when the string is empty (byte index 1 out of bounds) or when its
first character occupies more than one byte (byte index 1 is not a character
boundary). -/
def rustDrop1 (s : List Char) : Option (List Char) :=
  match s with
  | [] => none
  | c :: rest => if utf8Len c = 1 then some rest else none

/-- `pub struct Color(Option<String>)`: an optional colour string. -/
structure Color where
  val : Option (List Char)
deriving DecidableEq

/-- Model of Rust `char::is_ascii_hexdigit`. -/
def rustIsAsciiHexDigit (c : Char) : Bool :=
  ('0' ≤ c && c ≤ '9') || ('a' ≤ c && c ≤ 'f') || ('A' ≤ c && c ≤ 'F')

/-- `impl FromStr for Color`: the empty string yields no colour; a string of
byte length 7 starting with `#` whose remaining characters are ASCII hex
digits yields that colour; anything else is an error. -/
def Color.fromStr (s : List Char) : Except (List Char) Color :=
  if s = [] then .ok ⟨none⟩
  else if byteLen s == 7 && ['#'].isPrefixOf s && s.tail.all rustIsAsciiHexDigit then
    .ok ⟨some s⟩
  else .error ("Invalid hex color: ".data ++ s)

/-- `Color::draw` composed with `Display for DrawColor`: with a colour `c`
the element is wrapped as `%{Fc}element%{F-}`; without a colour the element
is emitted unchanged. -/
def Color.draw (c : Color) (element : List Char) : List Char :=
  match c.val with
  | some h => "%\x7bF".data ++ h ++ "\x7d".data ++ element ++ "%\x7bF-\x7d".data
  | none => element

/-- The five colour settings of `struct Colors`. -/
structure Colors where
  free : Color
  monitor : Color
  occupied : Color
  urgent : Color
  state : Color
deriving DecidableEq

/-- All five colour settings absent (every flag left at its default `""`). -/
def noColors : Colors :=
  ⟨⟨none⟩, ⟨none⟩, ⟨none⟩, ⟨none⟩, ⟨none⟩⟩

/-- Model of Rust `str::split(':')` at the character level: the separator is
ASCII, so splitting the character list on `':'` matches byte-level splitting.
Splitting the empty string yields one empty segment, as in Rust. -/
def splitCh : List Char → List (List Char)
  | [] => [[]]
  | c :: rest =>
    if c = ':' then [] :: splitCh rest
    else
      match splitCh rest with
      | [] => [[c]]
      | h :: t => (c :: h) :: t

/-- The `filter_map(split)` pass of `print_bspwm` over the segments: a
segment of byte length at most 1 is dropped; otherwise the token is its
first byte as a `char` together with `&s[1..]`, which panics (`none`) when
the first character is not a single byte. -/
def tokenizeSegs : List (List Char) → Option (List (Char × List Char))
  | [] => some []
  | [] :: rest => tokenizeSegs rest
  | (s0 :: stl) :: rest =>
    if 1 < byteLen (s0 :: stl) then
      if utf8Len s0 = 1 then
        (tokenizeSegs rest).map (fun ts => (s0, stl) :: ts)
      else none
    else tokenizeSegs rest

/-- The token stream of one input line: `bspwm[1..].split(':').filter_map(split)`. -/
def tokenize (line : List Char) : Option (List (Char × List Char)) :=
  match rustDrop1 line with
  | none => none
  | some rest => tokenizeSegs (splitCh rest)

/-- The formatted fragment written for one token by the `match` in
`print_bspwm`; an unrecognised marker contributes nothing. -/
def fragment (c : Colors) (start : Char) (name : List Char) : List Char :=
  match start with
  | 'm' => " ".data ++ c.monitor.draw name ++ "  ".data
  | 'M' => "-".data ++ c.monitor.draw name ++ "- ".data
  | 'f' => " ".data ++ c.free.draw name ++ "  ".data
  | 'F' => "-".data ++ c.free.draw name ++ "- ".data
  | 'o' => " ".data ++ c.occupied.draw name ++ "  ".data
  | 'O' => "-".data ++ c.occupied.draw name ++ "- ".data
  | 'u' => " ".data ++ c.urgent.draw name ++ "  ".data
  | 'U' => "-".data ++ c.urgent.draw name ++ "- ".data
  | 'L' | 'T' | 'G' => " ".data ++ c.state.draw name
  | _ => []

/-- `print_bspwm`: the bytes written to the sink for one input line — one
fragment per token followed by a newline — or `none` when tokenizing
panics. -/
def printBspwm (c : Colors) (bspwm : List Char) : Option (List Char) :=
  (tokenize bspwm).map
    (fun ts => (ts.map (fun t => fragment c t.1 t.2)).flatten ++ "\n".data)

/-- The read loop of `run`: `buf` holds the previous (popped) line, the new
line has its last character removed by `String::pop`, is presented only when
it differs from `buf`, and then becomes the new `buf`. Each element of the
result is the output of one `print_bspwm` call. -/
def runOutputs (c : Colors) : List Char → List (List Char) → List (Option (List Char))
  | _, [] => []
  | buf, l :: ls =>
    let nb := l.dropLast
    if nb ≠ buf then printBspwm c nb :: runOutputs c nb ls
    else runOutputs c nb ls

/-- Actions the supervising process can perform on the child process. -/
inductive ProcAction where
  | kill (signal : Nat)
  | waitChild
  | exitProcess (code : Nat)
deriving DecidableEq

/-- The body of the `simple_signal::set_handler` closure for `Term`/`Int`:
`kill(child_pid, SIGTERM)` (errors only logged) followed by
`std::process::exit(0)`.  The handler never calls `wait`. -/
def signalHandlerActions : List ProcAction :=
  [ProcAction.kill 15, ProcAction.exitProcess 0]

/-- What `run` produces by the time it returns. -/
structure RunExit where
  outputs : List (Option (List Char))
  childActions : List ProcAction
deriving DecidableEq

/-- `run` on the end-of-file path: after `read_line` returns `Ok(0)` the
loop `break`s and `run` returns `Ok(())`; no signal is sent to the child and
it is never waited on (the `Child` handle was moved into the signal-handler
closure and `std::process::Child` performs no cleanup on drop). -/
def runModel (c : Colors) (lines : List (List Char)) : RunExit :=
  { outputs := runOutputs c [] lines, childActions := [] }

/-- Spec-side join: marker-label segments joined with `:` separators. -/
def joinColon : List (List Char) → List Char
  | [] => []
  | [s] => s
  | s :: s2 :: rest => s ++ ':' :: joinColon (s2 :: rest)

/-- Spec-side line builder: frame marker `X` followed by the `:`-joined
marker+label segments. -/
def buildLine (X : Char) (pairs : List (Char × List Char)) : List Char :=
  X :: joinColon (pairs.map (fun p => p.1 :: p.2))

/-- Spec-side notion of a hexadecimal digit character. -/
def isHexDigitChar (c : Char) : Bool :=
  c.isDigit || ('a' ≤ c && c ≤ 'f') || ('A' ≤ c && c ≤ 'F')

/-! ## Helper lemmas -/

theorem utf8Len_pos (c : Char) : 1 ≤ utf8Len c := by
  unfold utf8Len
  split <;> [omega; split <;> [omega; split <;> omega]]

theorem byteLen_cons (c : Char) (s : List Char) :
    byteLen (c :: s) = utf8Len c + byteLen s := by
  simp [byteLen]

theorem byteLen_pos (s : List Char) (h : s ≠ []) : 1 ≤ byteLen s := by
  match s with
  | [] => exact absurd rfl h
  | c :: rest =>
    have := utf8Len_pos c
    rw [byteLen_cons]
    omega

theorem splitCh_cons (c : Char) (rest : List Char) :
    splitCh (c :: rest) =
      if c = ':' then [] :: splitCh rest
      else
        match splitCh rest with
        | [] => [[c]]
        | h :: t => (c :: h) :: t := rfl

theorem splitCh_no_sep (s : List Char) (h : ':' ∉ s) : splitCh s = [s] := by
  induction s with
  | nil => rfl
  | cons c rest ih =>
    have hc : c ≠ ':' := fun hc => h (hc ▸ List.mem_cons_self c rest)
    have hrest : ':' ∉ rest := fun hr => h (List.mem_cons_of_mem c hr)
    rw [splitCh_cons, if_neg hc, ih hrest]

theorem splitCh_append_sep (s t : List Char) (h : ':' ∉ s) :
    splitCh (s ++ ':' :: t) = s :: splitCh t := by
  induction s with
  | nil => simp [splitCh]
  | cons c rest ih =>
    have hc : c ≠ ':' := fun hc => h (hc ▸ List.mem_cons_self c rest)
    have hrest : ':' ∉ rest := fun hr => h (List.mem_cons_of_mem c hr)
    rw [List.cons_append, splitCh_cons, if_neg hc, ih hrest]

/-! ## Claim C3 -/

/-- Claim C3: on the input line `Oo1o2:O3` with all five colour settings
empty, the program writes exactly `" 1o2  -3- \n"`: the frame marker `O` is
discarded, the rest splits on `:` into `o1o2` and `O3`, the tokens are
`('o', "1o2")` and `('O', "3")`, rendered with the `o` and `O` layouts in
order, followed by one newline. -/
theorem c3_scenario_line :
    printBspwm noColors ("Oo1o2:O3".data) = some (" 1o2  -3- \n".data) := by
  decide

/-! ## Claim C8 -/

/-- Claim C8: segments of byte length 0 or 1 produced by splitting on `:`
are silently dropped, and the tokens of the remaining segments (byte length
at least 2) are produced in their original relative order: tokenizing any
segment list equals tokenizing the sublist of its valid segments. -/
theorem c8_short_segments_dropped (segs : List (List Char)) :
    tokenizeSegs segs = tokenizeSegs (segs.filter (fun s => decide (1 < byteLen s))) := by
  induction segs with
  | nil => rfl
  | cons seg rest ih =>
    match seg with
    | [] =>
      have hb : byteLen ([] : List Char) = 0 := rfl
      simp [tokenizeSegs, List.filter_cons, hb, ih]
    | s0 :: stl =>
      by_cases h : 1 < byteLen (s0 :: stl)
      · simp [tokenizeSegs, List.filter_cons, h, ih]
      · simp [tokenizeSegs, List.filter_cons, h, ih]

/-! ## Claim C9 -/

/-- Claim C9 (counterexample to the original claim): on the line `Xéa`
the single segment `éa` has a non-ASCII first character, and tokenizing
panics (`none`) instead of passing the first byte through as a marker: the
`&s[1..]` slice inside `split` is not on a character boundary. -/
theorem c9_counterexample : tokenize ("Xéa".data) = none := by decide

/-- Claim C9 (amended): for every segment whose first character is
non-ASCII (UTF-8 width at least 2), tokenizing the segment list fails
(models the `&s[1..]` character-boundary panic); no token is produced for
it or any later segment. -/
theorem c9_amended_nonascii_marker_panics (s0 : Char) (stl : List Char)
    (rest : List (List Char)) (h : 2 ≤ utf8Len s0) :
    tokenizeSegs ((s0 :: stl) :: rest) = none := by
  have h1 : 1 < byteLen (s0 :: stl) := by
    have := byteLen_cons s0 stl
    omega
  have h2 : ¬(utf8Len s0 = 1) := by omega
  simp [tokenizeSegs, h1, h2]

/-- Witness for the amended C9 at the concrete segment `éa`. -/
theorem c9_amended_witness : tokenizeSegs (['é', 'a'] :: []) = none :=
  c9_amended_nonascii_marker_panics 'é' ['a'] [] (by decide)

/-! ## Claim C2 -/

/-- Claim C2 (counterexample to the original claim): presenting the empty
line does not yield an empty token sequence without error — it panics
(`none`), because `bspwm[1..]` indexes out of bounds on an empty string. -/
theorem c2_counterexample : printBspwm noColors [] = none := by decide

/-- Claim C2 (amended): the empty line makes the presenter panic (`none`),
while a line of exactly one ASCII character yields an empty token sequence
and the output is just the newline. -/
theorem c2_amended_short_lines :
    (∀ c, printBspwm c [] = none) ∧
    (∀ (c : Colors) (ch : Char), utf8Len ch = 1 →
      printBspwm c [ch] = some ("\n".data)) := by
  constructor
  · intro c
    rfl
  · intro c ch h
    have hdrop : rustDrop1 [ch] = some [] := by
      unfold rustDrop1
      simp [h]
    unfold printBspwm tokenize
    rw [hdrop]
    rfl

/-- Witness for the amended C2 at the one-character line `W`. -/
theorem c2_amended_witness : printBspwm noColors ['W'] = some ("\n".data) :=
  c2_amended_short_lines.2 noColors 'W' (by decide)

/-! ## Claim C5 -/

/-- Claim C5: a newly read line that is byte-identical (after the trailing
pop) to the immediately preceding line is suppressed — processing
`a :: b :: ls` with `a` and `b` stripping equal is the same as processing
`a :: ls` — and only the single most-recent line is compared: the sequence
A, B, A produces three outputs. -/
theorem c5_dedup_consecutive :
    (∀ (c : Colors) (prev a b : List Char) (ls : List (List Char)),
      a.dropLast = b.dropLast →
      runOutputs c prev (a :: b :: ls) = runOutputs c prev (a :: ls)) ∧
    (runOutputs noColors []
      ("A0\n".data :: "B0\n".data :: "A0\n".data :: [])).length = 3 := by
  constructor
  · intro c prev a b ls h
    have inner : runOutputs c (a.dropLast) (b :: ls)
        = runOutputs c (a.dropLast) ls := by
      have e : runOutputs c (a.dropLast) (b :: ls)
          = if b.dropLast ≠ a.dropLast then
              printBspwm c b.dropLast :: runOutputs c b.dropLast ls
            else runOutputs c b.dropLast ls := rfl
      rw [e, ← h]
      simp
    have outer1 : runOutputs c prev (a :: b :: ls)
        = if a.dropLast ≠ prev then
            printBspwm c a.dropLast :: runOutputs c a.dropLast (b :: ls)
          else runOutputs c a.dropLast (b :: ls) := rfl
    have outer2 : runOutputs c prev (a :: ls)
        = if a.dropLast ≠ prev then
            printBspwm c a.dropLast :: runOutputs c a.dropLast ls
          else runOutputs c a.dropLast ls := rfl
    rw [outer1, outer2, inner]
  · decide

/-- Witness for C5: the same status line fed twice (with different raw
trailing characters) produces output once. -/
theorem c5_dedup_witness :
    runOutputs noColors [] ("Om1\n".data :: "Om1x".data :: [])
      = runOutputs noColors [] ("Om1\n".data :: []) :=
  c5_dedup_consecutive.1 noColors [] ("Om1\n".data) ("Om1x".data) [] (by decide)

/-! ## Claim C10 -/

/-- Claim C10: the driver pops exactly one trailing character from every
line unconditionally — a line ending in any character `d` is processed
exactly like the same line ending in a newline, and the line handed to the
presenter is the line without its last character. -/
theorem c10_unconditional_pop :
    ∀ (c : Colors) (prev l : List Char) (d : Char) (ls : List (List Char)),
      runOutputs c prev ((l ++ [d]) :: ls) = runOutputs c prev ((l ++ ['\n']) :: ls) ∧
      (l ≠ prev → runOutputs c prev ((l ++ [d]) :: []) = [printBspwm c l]) := by
  intro c prev l d ls
  have h1 : (l ++ [d]).dropLast = l := by simp
  have h2 : (l ++ ['\n']).dropLast = l := by simp
  constructor
  · simp only [runOutputs, h1, h2]
  · intro hne
    simp only [runOutputs, h1]
    rw [if_pos hne]

/-- Witness for C10: the non-newline-terminated final line `Om1x` is
presented as `Om1`. -/
theorem c10_witness :
    runOutputs noColors [] (("Om1".data ++ ['x']) :: [])
      = [printBspwm noColors ("Om1".data)] :=
  (c10_unconditional_pop noColors [] ("Om1".data) 'x' []).2 (by decide)

/-! ## Claim C7 -/

/-- Claim C7: a colour setting constructed from the empty string draws
every label unchanged, and a colour setting holding a hex value `hex`
draws a label as exactly `%{Fhex}label%{F-}`. -/
theorem c7_draw_markup :
    ∀ (label hex : List Char),
      (Color.fromStr []).map (fun col => col.draw label) = Except.ok label ∧
      Color.draw ⟨some hex⟩ label =
        "%\x7bF".data ++ hex ++ "\x7d".data ++ label ++ "%\x7bF-\x7d".data :=
  fun _ _ => ⟨rfl, rfl⟩

/-! ## Claim C1 -/

/-- Claim C1 (counterexample to the original claim): on the end-of-file
exit path `run` performs no action on the child at all, and the signal
handler never waits on the child, so the child is neither signalled on the
EOF path nor ever reaped. -/
theorem c1_counterexample :
    (runModel noColors []).childActions = [] ∧
    ProcAction.waitChild ∉ signalHandlerActions := by
  constructor
  · rfl
  · decide

/-- Claim C1 (amended): when an interrupt/terminate signal is delivered the
supervising process sends SIGTERM (signal 15) to the child and exits with
code 0 without waiting on it; when the child's output stream reaches
end-of-file the program exits without signalling or waiting on the child. -/
theorem c1_amended_cleanup :
    (∀ (c : Colors) (lines : List (List Char)),
      (runModel c lines).childActions = []) ∧
    signalHandlerActions = [ProcAction.kill 15, ProcAction.exitProcess 0] :=
  ⟨fun _ _ => rfl, rfl⟩

/-! ## Claim C4 -/

theorem tokenizeSegs_joinColon (pairs : List (Char × List Char))
    (h : ∀ p ∈ pairs, utf8Len p.1 = 1 ∧ p.1 ≠ ':' ∧ p.2 ≠ [] ∧ ':' ∉ p.2) :
    tokenizeSegs (splitCh (joinColon (pairs.map (fun p => p.1 :: p.2))))
      = some pairs := by
  induction pairs with
  | nil => rfl
  | cons p rest ih =>
    obtain ⟨hp1, hp2, hp3, hp4⟩ := h p (List.mem_cons_self p rest)
    have hrest := fun q hq => h q (List.mem_cons_of_mem p hq)
    have hnosep : ':' ∉ (p.1 :: p.2) := by
      intro hm
      rcases List.mem_cons.1 hm with h' | h'
      · exact hp2 h'.symm
      · exact hp4 h'
    have hlen : 1 < byteLen (p.1 :: p.2) := by
      have := byteLen_cons p.1 p.2
      have := byteLen_pos p.2 hp3
      omega
    cases rest with
    | nil =>
      rw [List.map_cons, List.map_nil]
      rw [show joinColon [p.1 :: p.2] = p.1 :: p.2 from rfl]
      rw [splitCh_no_sep _ hnosep]
      rw [show tokenizeSegs [p.1 :: p.2]
          = if 1 < byteLen (p.1 :: p.2) then
              if utf8Len p.1 = 1 then
                (tokenizeSegs []).map (fun ts => (p.1, p.2) :: ts)
              else none
            else tokenizeSegs [] from rfl]
      rw [if_pos hlen, if_pos hp1]
      rfl
    | cons q r =>
      simp only [List.map_cons]
      rw [show joinColon ((p.1 :: p.2) :: (q.1 :: q.2) :: (r.map (fun p => p.1 :: p.2)))
          = (p.1 :: p.2) ++ ':' :: joinColon ((q.1 :: q.2) :: (r.map (fun p => p.1 :: p.2)))
          from rfl]
      rw [splitCh_append_sep _ _ hnosep]
      rw [show tokenizeSegs ((p.1 :: p.2) :: splitCh (joinColon ((q.1 :: q.2) :: r.map (fun p => p.1 :: p.2))))
          = if 1 < byteLen (p.1 :: p.2) then
              if utf8Len p.1 = 1 then
                (tokenizeSegs (splitCh (joinColon ((q.1 :: q.2) :: r.map (fun p => p.1 :: p.2))))).map
                  (fun ts => (p.1, p.2) :: ts)
              else none
            else tokenizeSegs (splitCh (joinColon ((q.1 :: q.2) :: r.map (fun p => p.1 :: p.2))))
          from rfl]
      rw [if_pos hlen, if_pos hp1]
      have ih' := ih hrest
      simp only [List.map_cons] at ih'
      rw [ih']
      rfl

/-- Claim C4 (counterexample to the original claim): an empty label is not
recovered — the pair `('m', "")` yields the segment `m` of length 1, which
the tokenizer drops, so the round trip loses it. -/
theorem c4_counterexample :
    tokenize (buildLine 'W' [('m', ([] : List Char))])
      ≠ some [('m', ([] : List Char))] := by
  decide

/-- Claim C4 (amended): for every list of (marker, label) pairs whose
markers are single-byte characters other than `:` and whose labels are
nonempty and do not contain `:`, and any single-byte frame marker `X`,
tokenizing the line built as `X` followed by the `:`-joined marker+label
segments recovers exactly the original pairs in order. -/
theorem c4_amended_roundtrip (X : Char) (pairs : List (Char × List Char))
    (hX : utf8Len X = 1)
    (h : ∀ p ∈ pairs, utf8Len p.1 = 1 ∧ p.1 ≠ ':' ∧ p.2 ≠ [] ∧ ':' ∉ p.2) :
    tokenize (buildLine X pairs) = some pairs := by
  have hdrop : rustDrop1 (buildLine X pairs)
      = some (joinColon (pairs.map (fun p => p.1 :: p.2))) := by
    unfold buildLine rustDrop1
    simp [hX]
  unfold tokenize
  rw [hdrop]
  exact tokenizeSegs_joinColon pairs h

/-- Witness for the amended C4 at two concrete pairs. -/
theorem c4_amended_witness :
    tokenize (buildLine 'W' [('m', "1".data), ('O', "2".data)])
      = some [('m', "1".data), ('O', "2".data)] :=
  c4_amended_roundtrip 'W' [('m', "1".data), ('O', "2".data)] (by decide) (by decide)

/-! ## Claim C6 -/

theorem rustHex_iff_spec (c : Char) :
    rustIsAsciiHexDigit c = true ↔ isHexDigitChar c = true := by
  simp only [rustIsAsciiHexDigit, isHexDigitChar, Char.isDigit, Bool.or_eq_true,
    Bool.and_eq_true, decide_eq_true_eq]
  constructor
  · rintro ((⟨h1, h2⟩ | ⟨h1, h2⟩) | ⟨h1, h2⟩)
    · exact Or.inl (Or.inl ⟨h1, h2⟩)
    · exact Or.inl (Or.inr ⟨h1, h2⟩)
    · exact Or.inr ⟨h1, h2⟩
  · rintro ((⟨h1, h2⟩ | ⟨h1, h2⟩) | ⟨h1, h2⟩)
    · exact Or.inl (Or.inl ⟨h1, h2⟩)
    · exact Or.inl (Or.inr ⟨h1, h2⟩)
    · exact Or.inr ⟨h1, h2⟩

theorem rustHex_utf8Len (c : Char) (h : rustIsAsciiHexDigit c = true) :
    utf8Len c = 1 := by
  have hb : c.toNat < 128 := by
    simp only [rustIsAsciiHexDigit, Bool.or_eq_true, Bool.and_eq_true,
      decide_eq_true_eq] at h
    rcases h with (⟨h1, h2⟩ | ⟨h1, h2⟩) | ⟨h1, h2⟩
    · have h2' : c.toNat ≤ 57 := h2
      omega
    · have h2' : c.toNat ≤ 102 := h2
      omega
    · have h2' : c.toNat ≤ 70 := h2
      omega
  unfold utf8Len
  rw [if_pos hb]

theorem hexList_byteLen (t : List Char)
    (h : ∀ c ∈ t, rustIsAsciiHexDigit c = true) :
    byteLen t = t.length := by
  induction t with
  | nil => rfl
  | cons c r ih =>
    rw [byteLen_cons, rustHex_utf8Len c (h c (List.mem_cons_self c r)),
      ih (fun x hx => h x (List.mem_cons_of_mem c hx)), List.length_cons]
    omega

/-- Claim C6: constructing a `Color` succeeds exactly on the empty string
(no colour) and on the strings consisting of `#` followed by six hex
digits; every other string is rejected with an error. -/
theorem c6_fromStr_hex_grammar (s : List Char) :
    (∃ v, Color.fromStr s = Except.ok v) ↔
      (s = [] ∨
        ∃ t, s = '#' :: t ∧ t.length = 6 ∧ ∀ c ∈ t, isHexDigitChar c = true) := by
  cases s with
  | nil =>
    constructor
    · intro _
      exact Or.inl rfl
    · intro _
      exact ⟨⟨none⟩, rfl⟩
  | cons c0 t =>
    have hnil : (c0 :: t) ≠ ([] : List Char) := by simp
    unfold Color.fromStr
    rw [if_neg hnil]
    by_cases hc : (byteLen (c0 :: t) == 7 && ['#'].isPrefixOf (c0 :: t)
        && (c0 :: t).tail.all rustIsAsciiHexDigit) = true
    · rw [if_pos hc]
      constructor
      · intro _
        right
        simp only [Bool.and_eq_true, beq_iff_eq] at hc
        obtain ⟨⟨hlen, hpre⟩, hall⟩ := hc
        have hc0 : '#' = c0 := by
          simpa [List.isPrefixOf] using hpre
        subst hc0
        have hall' : ∀ c ∈ t, rustIsAsciiHexDigit c = true := by
          rw [List.tail_cons, List.all_eq_true] at hall
          exact hall
        refine ⟨t, rfl, ?_, fun c hc' => (rustHex_iff_spec c).1 (hall' c hc')⟩
        have h1 : utf8Len '#' = 1 := by decide
        rw [byteLen_cons, h1, hexList_byteLen t hall'] at hlen
        omega
      · intro _
        exact ⟨⟨some (c0 :: t)⟩, rfl⟩
    · rw [if_neg hc]
      constructor
      · rintro ⟨v, hv⟩
        simp at hv
      · rintro (habs | ⟨t', ht', hlen, hhex⟩)
        · exact absurd habs hnil
        · exfalso
          apply hc
          injection ht' with h1 h2
          subst h1
          subst h2
          have hall : ∀ c ∈ t, rustIsAsciiHexDigit c = true :=
            fun c hcm => (rustHex_iff_spec c).2 (hhex c hcm)
          simp only [Bool.and_eq_true, beq_iff_eq]
          refine ⟨⟨?_, by simp [List.isPrefixOf]⟩, ?_⟩
          · have hu : utf8Len '#' = 1 := by decide
            rw [byteLen_cons, hu, hexList_byteLen t hall, hlen]
          · rw [List.tail_cons, List.all_eq_true]
            exact hall
